import Mathlib

/-!
Verification of the quantitative portfolio engine of the AI-Investment-Dashboard
backend, a shallow embedding of src/backend/services/optimizer.py and of the
risk-metrics block of src/backend/api/portfolio.py over exact rational
arithmetic.  Machine floats are modelled by ℚ; square roots, where the code
takes them, are modelled over ℝ.  Parts of the computation performed by the
third-party pypfopt library (the QP solver and its weight cleaning) are not in
the repository; those are modelled from the spec and are marked as such.
-/

/-- Dot product of two equal-length vectors, matching numpy's np.dot on 1-d
arrays (elementwise product, then sum). -/
def dotQ (a b : List ℚ) : ℚ := (List.zipWith (· * ·) a b).sum

/-- Matrix–vector product S·w (np.dot(S, weights)): one dot product per row. -/
def matVecQ (S : List (List ℚ)) (w : List ℚ) : List ℚ := S.map (fun row => dotQ row w)

/-- Portfolio variance w^T S w as computed in optimizer.py line 128,
np.dot(weights.T, np.dot(S, weights)), before any square root is taken. -/
def portVarianceQ (w : List ℚ) (S : List (List ℚ)) : ℚ := dotQ w (matVecQ S w)

/-- Modelled from the spec: pypfopt's EfficientFrontier.clean_weights, called at
optimizer.py line 85, is not part of src/.  Spec 4.3: "weights below a small
threshold (e.g., 1e-4) are snapped to zero and the remainder renormalized to
sum to 1". -/
def clean_weights (w : List ℚ) (cutoff : ℚ) : List ℚ :=
  let snapped := w.map (fun x => if x < cutoff then 0 else x)
  let s := snapped.sum
  if s = 0 then snapped else snapped.map (fun x => x / s)

/-- Performance metrics of optimize_portfolio (optimizer.py lines 88–94).  The
volatility is represented by its square (the variance), so that the model stays
in exact rational arithmetic; volatility = sqrt varianceQ and the Sharpe ratio
is derived from the two fields. -/
structure PerfQ where
  expected_return : ℚ
  varianceQ : ℚ
deriving DecidableEq

/-- Error taxonomy of optimize_portfolio: the two ValueError raises that are in
the source (optimizer.py lines 79 and 82) and the solver failure kinds named by
spec section 7. -/
inductive OptErr where
  | infeasibleConstraint
  | numericalError
  | valueErrorMissingTarget
  | valueErrorInvalidType
deriving DecidableEq

/-- Modelled from the spec: the pypfopt QP solve shared by the three objectives
is not part of src/.  The weight-cap constraint is registered only when
max_weight < 1.0 (optimizer.py lines 69–70); per spec 4.3 the solve fails with
InfeasibleConstraintError when max_weight × asset_count < 1, and otherwise
returns the optimizer's weights (passed here as the parameter solverW), cleaned,
together with the analytic performance metrics. -/
def efSolve (mu : List ℚ) (S : List (List ℚ)) (max_weight : ℚ) (solverW : List ℚ) :
    Except OptErr (List ℚ × PerfQ) :=
  if max_weight < 1 ∧ max_weight * (mu.length : ℚ) < 1 then .error .infeasibleConstraint
  else .ok (clean_weights solverW (1/10000), ⟨dotQ solverW mu, portVarianceQ solverW S⟩)

/-- Shallow embedding of optimize_portfolio (optimizer.py lines 50–100).  The
control flow is translated from the source: dispatch on optimization_type,
ValueError when target_volatility is missing for efficient_risk (line 79) or
the type is unrecognized (line 82), cleaning of the solved weights (line 85).
The solver outcome itself is modelled from the spec through efSolve, with
solverW the raw optimal weights and minVar the variance of the global
minimum-volatility portfolio; per spec 4.3, efficient_risk fails with
InfeasibleConstraintError when the target volatility lies strictly below the
minimum-volatility portfolio's volatility, which over ℚ (avoiding the square
root) reads: target < 0 or target² < minVar. -/
def optimize_portfolio (mu : List ℚ) (S : List (List ℚ)) (optimization_type : String)
    (target_volatility : Option ℚ) (max_weight : ℚ)
    (solverW : List ℚ) (minVar : ℚ) : Except OptErr (List ℚ × PerfQ) :=
  if optimization_type = "max_sharpe" then efSolve mu S max_weight solverW
  else if optimization_type = "min_volatility" then efSolve mu S max_weight solverW
  else if optimization_type = "efficient_risk" then
    match target_volatility with
    | none => .error .valueErrorMissingTarget
    | some t =>
      if t < 0 ∨ t * t < minVar then .error .infeasibleConstraint
      else efSolve mu S max_weight solverW
  else .error .valueErrorInvalidType

lemma sum_map_div (l : List ℚ) (s : ℚ) : (l.map (fun x => x / s)).sum = l.sum / s := by
  induction l with
  | nil => simp
  | cons a t ih => simp [ih, add_div]

lemma snapped_sum_le (w : List ℚ) (c : ℚ) (hw : ∀ x ∈ w, 0 ≤ x) :
    (w.map (fun x => if x < c then 0 else x)).sum ≤ w.sum := by
  induction w with
  | nil => simp
  | cons a t ih =>
    have ha : 0 ≤ a := hw a (List.mem_cons_self a t)
    have ht := ih (fun x hx => hw x (List.mem_cons_of_mem a hx))
    by_cases h : a < c <;> simp [h] <;> linarith

lemma snapped_sum_ge (w : List ℚ) (c : ℚ) (hc : 0 ≤ c) :
    w.sum - (w.length : ℚ) * c ≤ (w.map (fun x => if x < c then 0 else x)).sum := by
  induction w with
  | nil => simp
  | cons a t ih =>
    have hcast : ((t.length + 1 : ℕ) : ℚ) = (t.length : ℚ) + 1 := by push_cast; ring
    by_cases h : a < c <;> simp [h, hcast] <;> nlinarith

lemma clean_weights_sum_bounds (w : List ℚ) (max_weight : ℚ)
    (hsum : w.sum = 1) (hbd : ∀ x ∈ w, 0 ≤ x ∧ x ≤ max_weight)
    (hc : (w.length : ℚ) * (1/10000) < 1) :
    (clean_weights w (1/10000)).sum = 1 ∧
    ∀ y ∈ clean_weights w (1/10000),
      0 ≤ y ∧ y ≤ max_weight / (1 - (w.length : ℚ) * (1/10000)) := by
  have hge := snapped_sum_ge w (1/10000) (by norm_num)
  have hspos : 0 < (w.map (fun x => if x < 1/10000 then 0 else x)).sum := by
    rw [hsum] at hge; linarith
  have hsle : 1 - (w.length : ℚ) * (1/10000) ≤
      (w.map (fun x => if x < 1/10000 then 0 else x)).sum := by
    rw [hsum] at hge; linarith
  have hclean : clean_weights w (1/10000) =
      (w.map (fun x => if x < 1/10000 then 0 else x)).map
        (fun x => x / (w.map (fun x => if x < 1/10000 then 0 else x)).sum) := by
    simp only [clean_weights]
    rw [if_neg (by exact ne_of_gt hspos)]
  constructor
  · rw [hclean, sum_map_div, div_self (ne_of_gt hspos)]
  · intro y hy
    rw [hclean] at hy
    rcases List.mem_map.mp hy with ⟨x, hxmem, hxeq⟩
    rcases List.mem_map.mp hxmem with ⟨a, hamem, haeq⟩
    rcases hbd a hamem with ⟨ha0, hamw⟩
    have hmw0 : 0 ≤ max_weight := le_trans ha0 hamw
    have hx0 : 0 ≤ x := by
      rw [← haeq]; split
      · exact le_refl 0
      · exact ha0
    have hxmw : x ≤ max_weight := by
      rw [← haeq]; split
      · exact hmw0
      · exact hamw
    subst hxeq
    refine ⟨div_nonneg hx0 (le_of_lt hspos), ?_⟩
    calc x / (w.map (fun x => if x < 1/10000 then 0 else x)).sum
        ≤ max_weight / (w.map (fun x => if x < 1/10000 then 0 else x)).sum := by
          gcongr
      _ ≤ max_weight / (1 - (w.length : ℚ) * (1/10000)) := by
          gcongr
          linarith

lemma efSolve_ok (mu : List ℚ) (S : List (List ℚ)) (max_weight : ℚ)
    (solverW cw : List ℚ) (p : PerfQ)
    (hok : efSolve mu S max_weight solverW = .ok (cw, p)) :
    cw = clean_weights solverW (1/10000) := by
  unfold efSolve at hok
  split at hok
  · exact absurd hok (by simp)
  · simp only [Except.ok.injEq, Prod.mk.injEq] at hok
    exact hok.1.symm

lemma optimize_portfolio_ok (mu : List ℚ) (S : List (List ℚ)) (otype : String)
    (tv : Option ℚ) (max_weight : ℚ) (solverW : List ℚ) (minVar : ℚ)
    (cw : List ℚ) (p : PerfQ)
    (hok : optimize_portfolio mu S otype tv max_weight solverW minVar = .ok (cw, p)) :
    cw = clean_weights solverW (1/10000) := by
  unfold optimize_portfolio at hok
  split at hok
  · exact efSolve_ok mu S max_weight solverW cw p hok
  · split at hok
    · exact efSolve_ok mu S max_weight solverW cw p hok
    · split at hok
      · split at hok
        · exact absurd hok (by simp)
        · split at hok
          · exact absurd hok (by simp)
          · exact efSolve_ok mu S max_weight solverW cw p hok
      · exact absurd hok (by simp)

/-- C1 counterexample: a successful min_volatility call with max_weight = 1/2 on
three assets, whose solver weights [0.5, 0.49995, 0.00005] satisfy the solver's
constraints exactly (they sum to 1 and each lies in [0, max_weight]), yet after
cleaning — the sub-threshold weight 0.00005 < 1e-4 snapped to zero and the
remainder renormalized — the first returned weight 10000/19999 exceeds
max_weight + 1e-6. -/
theorem clean_cap_bound_cex :
    (optimize_portfolio [1/10, 3/25, 2/25]
        [[1/25, 1/100, 0], [1/100, 9/100, 0], [0, 0, 1/25]] "min_volatility" none (1/2)
        [1/2, 49995/100000, 5/100000] (1/50)).toOption.map Prod.fst
      = some [10000/19999, 9999/19999, 0] ∧
    ([(1:ℚ)/2, 49995/100000, 5/100000].sum = 1) ∧
    (∀ x ∈ [(1:ℚ)/2, 49995/100000, 5/100000], 0 ≤ x ∧ x ≤ 1/2) ∧
    (1/2 + 1/1000000 : ℚ) < 10000/19999 := by
  refine ⟨?_, by norm_num, by norm_num, by norm_num⟩
  norm_num [optimize_portfolio, efSolve, clean_weights, Except.toOption]

/-- C1 amended: for every successful optimize_portfolio call whose solver
weights sum to one and respect the [0, max_weight] bounds, and whose asset
count n satisfies n · 1e-4 < 1, the returned cleaned weight vector sums to
exactly 1 and every entry lies in [0, max_weight / (1 − n · 1e-4)]: the
renormalization after snapping can inflate a capped weight by the zeroed mass
(< n · 1e-4), so the spec's max_weight + 1e-6 cap must be relaxed to this
quotient. -/
theorem optimize_portfolio_weight_invariant (mu : List ℚ) (S : List (List ℚ))
    (otype : String) (tv : Option ℚ) (max_weight : ℚ) (solverW : List ℚ) (minVar : ℚ)
    (cw : List ℚ) (p : PerfQ)
    (hok : optimize_portfolio mu S otype tv max_weight solverW minVar = .ok (cw, p))
    (hsum : solverW.sum = 1) (hbd : ∀ x ∈ solverW, 0 ≤ x ∧ x ≤ max_weight)
    (hc : (solverW.length : ℚ) * (1/10000) < 1) :
    cw.sum = 1 ∧
    ∀ y ∈ cw, 0 ≤ y ∧ y ≤ max_weight / (1 - (solverW.length : ℚ) * (1/10000)) := by
  rw [optimize_portfolio_ok mu S otype tv max_weight solverW minVar cw p hok]
  exact clean_weights_sum_bounds solverW max_weight hsum hbd hc

/-- Witness for the amended C1 theorem at a concrete successful call. -/
theorem optimize_portfolio_weight_invariant_witness :
    optimize_portfolio [1/10, 3/25] [[1/25, 1/100], [1/100, 9/100]] "min_volatility"
      none 1 [1/2, 1/2] (1/50) = .ok ([1/2, 1/2], ⟨11/100, 3/80⟩) ∧
    ([(1:ℚ)/2, 1/2].sum = 1) ∧ (∀ x ∈ [(1:ℚ)/2, 1/2], 0 ≤ x ∧ x ≤ 1) ∧
    (([(1:ℚ)/2, 1/2].length : ℚ) * (1/10000) < 1) ∧
    (([1/2, 1/2] : List ℚ).sum = 1 ∧
      ∀ y ∈ ([1/2, 1/2] : List ℚ),
        0 ≤ y ∧ y ≤ 1 / (1 - (([(1:ℚ)/2, 1/2].length : ℚ)) * (1/10000))) := by
  refine ⟨?_, by norm_num, by norm_num, by norm_num, ?_⟩
  · norm_num [optimize_portfolio, efSolve, clean_weights, dotQ, matVecQ, portVarianceQ]
  · exact optimize_portfolio_weight_invariant [1/10, 3/25] [[1/25, 1/100], [1/100, 9/100]]
      "min_volatility" none 1 [1/2, 1/2] (1/50) [1/2, 1/2] ⟨11/100, 3/80⟩
      (by norm_num [optimize_portfolio, efSolve, clean_weights, dotQ, matVecQ, portVarianceQ])
      (by norm_num) (by norm_num) (by norm_num)

/-- C2: a call to optimize_portfolio with objective "efficient_risk" and a
target_volatility strictly below the minimum-volatility portfolio's volatility
(over ℚ: target < 0, or target² below the minimum variance) fails with
InfeasibleConstraintError and never returns a weight vector. -/
theorem efficient_risk_below_floor_fails (mu : List ℚ) (S : List (List ℚ))
    (t max_weight : ℚ) (solverW : List ℚ) (minVar : ℚ)
    (hbelow : t < 0 ∨ t * t < minVar) :
    optimize_portfolio mu S "efficient_risk" (some t) max_weight solverW minVar
      = .error .infeasibleConstraint := by
  simp [optimize_portfolio, hbelow]

/-- Witness for C2 at a concrete infeasible target (0.1² = 0.01 < minVar = 0.02). -/
theorem efficient_risk_below_floor_fails_witness :
    ((1:ℚ)/10 < 0 ∨ (1:ℚ)/10 * (1/10) < 1/50) ∧
    optimize_portfolio [1/10, 3/25] [[1/25, 1/100], [1/100, 9/100]] "efficient_risk"
      (some (1/10)) 1 [1, 0] (1/50) = .error .infeasibleConstraint :=
  ⟨Or.inr (by norm_num),
   efficient_risk_below_floor_fails [1/10, 3/25] [[1/25, 1/100], [1/100, 9/100]]
     (1/10) 1 [1, 0] (1/50) (Or.inr (by norm_num))⟩

/-- C5 counterexample: a call with max_weight × asset_count = 1/4 × 2 < 1 but
optimization_type "efficient_risk" and target_volatility = None fails with the
ValueError raised at optimizer.py line 79 (mapped by the API layer to a 422,
unlike other failures), not with InfeasibleConstraintError. -/
theorem max_weight_cap_valueerror_cex :
    optimize_portfolio [1/10, 3/25] [[1/25, 1/100], [1/100, 9/100]] "efficient_risk"
      none (1/4) [1/2, 1/2] (1/50) = .error .valueErrorMissingTarget ∧
    (1/4 : ℚ) * (([(1:ℚ)/10, 3/25].length : ℚ)) < 1 ∧
    OptErr.valueErrorMissingTarget ≠ OptErr.infeasibleConstraint := by
  refine ⟨by simp [optimize_portfolio], by norm_num, by simp⟩

/-- C5 amended: every call with a recognized optimization_type, a provided
target_volatility when the type is "efficient_risk", at least one asset, and
max_weight × asset_count < 1, fails with InfeasibleConstraintError. -/
theorem max_weight_cap_infeasible (mu : List ℚ) (S : List (List ℚ))
    (otype : String) (tv : Option ℚ) (max_weight : ℚ) (solverW : List ℚ) (minVar : ℚ)
    (hn : 1 ≤ mu.length)
    (hcap : max_weight * (mu.length : ℚ) < 1)
    (hvalid : otype = "max_sharpe" ∨ otype = "min_volatility" ∨
              (otype = "efficient_risk" ∧ ∃ t, tv = some t)) :
    optimize_portfolio mu S otype tv max_weight solverW minVar
      = .error .infeasibleConstraint := by
  have hn1 : (1:ℚ) ≤ (mu.length : ℚ) := by exact_mod_cast hn
  have hmw : max_weight < 1 := by nlinarith
  rcases hvalid with h | h | ⟨h, t, ht⟩
  · subst h; simp [optimize_portfolio, efSolve, hmw, hcap]
  · subst h; simp [optimize_portfolio, efSolve, hmw, hcap]
  · subst h; subst ht
    simp only [optimize_portfolio]
    norm_num [efSolve, hmw, hcap]

/-- Witness for the amended C5 theorem at a concrete capped call. -/
theorem max_weight_cap_infeasible_witness :
    1 ≤ ([(1:ℚ)/10, 3/25].length) ∧
    (1/4 : ℚ) * (([(1:ℚ)/10, 3/25].length : ℚ)) < 1 ∧
    optimize_portfolio [1/10, 3/25] [[1/25, 1/100], [1/100, 9/100]] "max_sharpe"
      none (1/4) [1/2, 1/2] (1/50) = .error .infeasibleConstraint :=
  ⟨by norm_num, by norm_num,
   max_weight_cap_infeasible [1/10, 3/25] [[1/25, 1/100], [1/100, 9/100]] "max_sharpe"
     none (1/4) [1/2, 1/2] (1/50) (by norm_num) (by norm_num) (Or.inl rfl)⟩

/-- Rounding to two decimal places, round(x, 2) of optimizer.py line 159: round
to the nearest multiple of 1/100.  (Python rounds ties to even; Mathlib's round
rounds ties up — the two differ only on exact ties, and every bound proved here
holds for either tie rule since both are within half a cent.) -/
def round2 (x : ℚ) : ℚ := (round (x * 100) : ℤ) / 100

/-- Shallow embedding of calculate_dollar_allocations (optimizer.py lines
145–163): each ticker's weight times the investment amount, rounded to cents.
The ticker→weight dict is modelled by the list of its weight values. -/
def calculate_dollar_allocations (weights : List ℚ) (investment_amount : ℚ) : List ℚ :=
  weights.map (fun w => round2 (w * investment_amount))

lemma round2_err (x : ℚ) : |round2 x - x| ≤ 1/200 := by
  have h := abs_sub_round (x * 100)
  have hx : round2 x - x = (((round (x * 100) : ℤ) : ℚ) - x * 100) / 100 := by
    unfold round2; ring
  rw [hx, abs_div]
  rw [abs_of_pos (by norm_num : (0:ℚ) < 100)]
  rw [abs_sub_comm] at h
  linarith

lemma alloc_sum_err (ws : List ℚ) (C : ℚ) :
    |(ws.map (fun w => round2 (w * C))).sum - ws.sum * C| ≤ (ws.length : ℚ) * (1/200) := by
  induction ws with
  | nil => simp
  | cons a t ih =>
    have ha := round2_err (a * C)
    have habs := abs_add (round2 (a * C) - a * C)
      ((t.map (fun w => round2 (w * C))).sum - t.sum * C)
    have hcast : ((t.length + 1 : ℕ) : ℚ) = (t.length : ℚ) + 1 := by push_cast; ring
    simp only [List.map_cons, List.sum_cons, List.length_cons, hcast]
    have heq : round2 (a * C) + (t.map (fun w => round2 (w * C))).sum - (a + t.sum) * C
        = (round2 (a * C) - a * C) + ((t.map (fun w => round2 (w * C))).sum - t.sum * C) := by
      ring
    rw [heq]
    calc |(round2 (a * C) - a * C) + ((t.map (fun w => round2 (w * C))).sum - t.sum * C)|
        ≤ |round2 (a * C) - a * C| + |(t.map (fun w => round2 (w * C))).sum - t.sum * C| :=
          habs
      _ ≤ 1/200 + (t.length : ℚ) * (1/200) := add_le_add ha ih
      _ = ((t.length : ℚ) + 1) * (1/200) := by ring

/-- C7: for every weights list summing to 1 and every capital amount C over n
tickers, the dollar allocations (weight × C rounded to cents) themselves sum to
C within 0.01 × n. -/
theorem dollar_allocations_sum_close (weights : List ℚ) (C : ℚ)
    (hsum : weights.sum = 1) :
    |(calculate_dollar_allocations weights C).sum - C| ≤ (1/100) * (weights.length : ℚ) := by
  have h := alloc_sum_err weights C
  rw [hsum, one_mul] at h
  have hn : (0:ℚ) ≤ (weights.length : ℚ) := by positivity
  calc |(calculate_dollar_allocations weights C).sum - C|
      ≤ (weights.length : ℚ) * (1/200) := h
    _ ≤ (1/100) * (weights.length : ℚ) := by linarith

/-- Witness for C7 at a concrete two-asset split of $100. -/
theorem dollar_allocations_sum_close_witness :
    ([(3:ℚ)/10, 7/10].sum = 1) ∧
    |(calculate_dollar_allocations [3/10, 7/10] 100).sum - 100| ≤
      (1/100) * (([(3:ℚ)/10, 7/10].length : ℚ)) :=
  ⟨by norm_num,
   dollar_allocations_sum_close [3/10, 7/10] 100 (by norm_num)⟩

/-- Linear interpolation into a sorted list at fractional virtual index hq, the
default "linear" rule of np.percentile: with i = ⌊hq⌋ and next index
j = min (i+1) (n−1), the value is s[i] + (hq − i)·(s[j] − s[i]). -/
def interpAt (s : List ℚ) (hq : ℚ) : ℚ :=
  s.getD (⌊hq⌋).toNat 0 +
    (hq - (((⌊hq⌋).toNat : ℕ) : ℚ)) *
      (s.getD (min ((⌊hq⌋).toNat + 1) (s.length - 1)) 0 - s.getD (⌊hq⌋).toNat 0)

/-- np.percentile(xs, q) with the default linear interpolation, as used at
portfolio.py lines 238 and 240: sort ascending, then interpolate at the virtual
index q·(n−1)/100.  (np.percentile raises on an empty array; the claims only
use nonempty series, where the branch below is never taken.) -/
def npPercentile (xs : List ℚ) (q : ℚ) : ℚ :=
  if xs = [] then 0
  else interpAt (List.insertionSort (· ≤ ·) xs) (q * ((xs.length : ℚ) - 1) / 100)

/-- var_95 of portfolio.py line 238: the 5th percentile of the portfolio return
series scaled by the investment amount (its sign is dropped only when the
RiskMetrics response is built, line 255). -/
def var_95 (portfolio_returns : List ℚ) (investment_amount : ℚ) : ℚ :=
  npPercentile portfolio_returns 5 * investment_amount

/-- var_99 of portfolio.py line 240: the 1st percentile of the portfolio return
series scaled by the investment amount. -/
def var_99 (portfolio_returns : List ℚ) (investment_amount : ℚ) : ℚ :=
  npPercentile portfolio_returns 1 * investment_amount

lemma sorted_getD_mono (s : List ℚ) (hs : List.Sorted (· ≤ ·) s) (a b : ℕ)
    (hab : a ≤ b) (hb : b < s.length) : s.getD a 0 ≤ s.getD b 0 := by
  have ha : a < s.length := lt_of_le_of_lt hab hb
  rw [List.getD_eq_getElem s 0 ha, List.getD_eq_getElem s 0 hb]
  have h := @List.Sorted.rel_get_of_le ℚ (· ≤ ·) _ s hs ⟨a, ha⟩ ⟨b, hb⟩
    (Fin.mk_le_mk.mpr hab)
  simpa using h

lemma interpAt_mono (s : List ℚ) (hs : List.Sorted (· ≤ ·) s) (hlen : 1 ≤ s.length)
    (h h' : ℚ) (h0 : 0 ≤ h) (hhh : h ≤ h') (hmax : h' ≤ (s.length : ℚ) - 1) :
    interpAt s h ≤ interpAt s h' := by
  have h0' : 0 ≤ h' := le_trans h0 hhh
  have hfl0 : (0:ℤ) ≤ ⌊h⌋ := Int.le_floor.mpr (by exact_mod_cast h0)
  have hfl0' : (0:ℤ) ≤ ⌊h'⌋ := Int.le_floor.mpr (by exact_mod_cast h0')
  have hiz : (((⌊h⌋).toNat : ℤ)) = ⌊h⌋ := Int.toNat_of_nonneg hfl0
  have hiz' : (((⌊h'⌋).toNat : ℤ)) = ⌊h'⌋ := Int.toNat_of_nonneg hfl0'
  have hicast : (((⌊h⌋).toNat : ℕ) : ℚ) = ((⌊h⌋ : ℤ) : ℚ) := by exact_mod_cast congrArg Int.cast hiz
  have hicast' : (((⌊h'⌋).toNat : ℕ) : ℚ) = ((⌊h'⌋ : ℤ) : ℚ) := by exact_mod_cast congrArg Int.cast hiz'
  have hile : (((⌊h⌋).toNat : ℕ) : ℚ) ≤ h := by rw [hicast]; exact Int.floor_le h
  have hile' : (((⌊h'⌋).toNat : ℕ) : ℚ) ≤ h' := by rw [hicast']; exact Int.floor_le h'
  have hlt1 : h < (((⌊h⌋).toNat : ℕ) : ℚ) + 1 := by rw [hicast]; exact_mod_cast Int.lt_floor_add_one h
  have hii : (⌊h⌋).toNat ≤ (⌊h'⌋).toNat := Int.toNat_le_toNat (Int.floor_mono hhh)
  have hflub : ⌊h'⌋ ≤ (s.length : ℤ) - 1 := by
    have : h' ≤ (((s.length : ℤ) - 1 : ℤ) : ℚ) := by push_cast; linarith
    calc ⌊h'⌋ ≤ ⌊(((s.length : ℤ) - 1 : ℤ) : ℚ)⌋ := Int.floor_mono this
      _ = (s.length : ℤ) - 1 := Int.floor_intCast _
  have hiub : (⌊h'⌋).toNat ≤ s.length - 1 := by omega
  have hiub0 : (⌊h⌋).toNat ≤ s.length - 1 := le_trans hii hiub
  have hjlt : min ((⌊h⌋).toNat + 1) (s.length - 1) < s.length := by omega
  have hjlt' : min ((⌊h'⌋).toNat + 1) (s.length - 1) < s.length := by omega
  have hilt' : (⌊h'⌋).toNat < s.length := by omega
  have hij : (⌊h⌋).toNat ≤ min ((⌊h⌋).toNat + 1) (s.length - 1) := by omega
  have hij' : (⌊h'⌋).toNat ≤ min ((⌊h'⌋).toNat + 1) (s.length - 1) := by omega
  have hba : s.getD (⌊h⌋).toNat 0 ≤ s.getD (min ((⌊h⌋).toNat + 1) (s.length - 1)) 0 :=
    sorted_getD_mono s hs _ _ hij hjlt
  have hba' : s.getD (⌊h'⌋).toNat 0 ≤ s.getD (min ((⌊h'⌋).toNat + 1) (s.length - 1)) 0 :=
    sorted_getD_mono s hs _ _ hij' hjlt'
  unfold interpAt
  rcases Nat.lt_or_ge (⌊h⌋).toNat (⌊h'⌋).toNat with hlt | hge
  · have hjle : min ((⌊h⌋).toNat + 1) (s.length - 1) ≤ (⌊h'⌋).toNat := by omega
    have hmid : s.getD (min ((⌊h⌋).toNat + 1) (s.length - 1)) 0 ≤ s.getD (⌊h'⌋).toNat 0 :=
      sorted_getD_mono s hs _ _ hjle hilt'
    have hfrac0' : 0 ≤ h' - (((⌊h'⌋).toNat : ℕ) : ℚ) := by linarith
    nlinarith [mul_nonneg hfrac0' (sub_nonneg.mpr hba'),
      mul_nonneg (sub_nonneg.mpr (le_of_lt hlt1)) (sub_nonneg.mpr hba)]
  · have heq : (⌊h'⌋).toNat = (⌊h⌋).toNat := le_antisymm (by omega) hii
    rw [heq]
    have hfr : h - (((⌊h⌋).toNat : ℕ) : ℚ) ≤ h' - (((⌊h⌋).toNat : ℕ) : ℚ) := by linarith
    nlinarith [mul_nonneg (sub_nonneg.mpr hhh) (sub_nonneg.mpr hba)]

lemma npPercentile_mono (xs : List ℚ) (q q' : ℚ) (hne : xs ≠ [])
    (h0 : 0 ≤ q) (hqq : q ≤ q') (h100 : q' ≤ 100) :
    npPercentile xs q ≤ npPercentile xs q' := by
  have hlen : 0 < xs.length := List.length_pos.mpr hne
  have hl1 : (1:ℚ) ≤ (xs.length : ℚ) := by exact_mod_cast hlen
  have hslen : (List.insertionSort (· ≤ ·) xs).length = xs.length :=
    (List.perm_insertionSort (· ≤ ·) xs).length_eq
  unfold npPercentile
  rw [if_neg hne, if_neg hne]
  apply interpAt_mono
  · exact List.sorted_insertionSort (· ≤ ·) xs
  · rw [hslen]; exact hlen
  · apply div_nonneg (mul_nonneg h0 (by linarith)) (by norm_num)
  · have := mul_le_mul_of_nonneg_right hqq (by linarith : (0:ℚ) ≤ (xs.length : ℚ) - 1)
    linarith
  · rw [hslen]; nlinarith

/-- C4 counterexample: a strictly positive daily-return series with three
distinct values.  Both percentiles of the return series are positive, the 1st
percentile is below the 5th, and taking absolute magnitudes (portfolio.py lines
255–256) flips the order: the reported VaR99 magnitude is strictly smaller
than the reported VaR95 magnitude. -/
theorem var99_magnitude_cex :
    |var_99 [1/100, 2/100, 3/100] 100| < |var_95 [1/100, 2/100, 3/100] 100| ∧
    ([(1:ℚ)/100, 2/100, 3/100].dedup.length > 1) := by
  constructor
  · unfold var_99 var_95 npPercentile
    rw [if_neg (by simp), if_neg (by simp)]
    norm_num [interpAt, List.insertionSort, List.orderedInsert, List.getD]
    rw [abs_of_pos (by norm_num), abs_of_pos (by norm_num)]
    norm_num
  · norm_num [List.dedup]

/-- C4 amended: for every nonempty portfolio return series whose 5th return
percentile is nonpositive (i.e. whose 95% loss percentile is a genuine loss)
and every nonnegative capital amount, the reported VaR99 magnitude is at least
the reported VaR95 magnitude.  For strictly profitable series the percentiles
are positive and the absolute values taken at portfolio.py lines 255–256
reverse the order, so the spec's unconditional claim fails. -/
theorem var_magnitudes_ordered (pr : List ℚ) (amount : ℚ)
    (hne : pr ≠ []) (hq5 : npPercentile pr 5 ≤ 0) :
    |var_95 pr amount| ≤ |var_99 pr amount| := by
  have hmono := npPercentile_mono pr 1 5 hne (by norm_num) (by norm_num) (by norm_num)
  unfold var_95 var_99
  rw [abs_mul, abs_mul]
  have habs : |npPercentile pr 5| ≤ |npPercentile pr 1| := by
    rw [abs_of_nonpos hq5, abs_of_nonpos (le_trans hmono hq5)]
    linarith
  exact mul_le_mul_of_nonneg_right habs (abs_nonneg amount)

/-- Witness for the amended C4 theorem at a concrete loss-bearing series. -/
theorem var_magnitudes_ordered_witness :
    ([(-1:ℚ)/10, 1/10] ≠ []) ∧ npPercentile [(-1:ℚ)/10, 1/10] 5 ≤ 0 ∧
    |var_95 [(-1:ℚ)/10, 1/10] 100| ≤ |var_99 [(-1:ℚ)/10, 1/10] 100| :=
  ⟨by simp,
   by
    unfold npPercentile
    rw [if_neg (by simp)]
    norm_num [interpAt, List.insertionSort, List.orderedInsert, List.getD],
   var_magnitudes_ordered [(-1:ℚ)/10, 1/10] 100 (by simp)
     (by
       unfold npPercentile
       rw [if_neg (by simp)]
       norm_num [interpAt, List.insertionSort, List.orderedInsert, List.getD])⟩

/-- RiskMetrics response model of portfolio.py lines 74–79. -/
structure RiskMetrics where
  value_at_risk_95 : ℚ
  value_at_risk_99 : ℚ
  max_drawdown : ℚ
  max_drawdown_duration_days : ℤ
deriving DecidableEq

/-- price_data.pct_change().dropna() (portfolio.py line 233): one row of
period-over-period relative changes per consecutive pair of price rows. -/
def pctChangeRows (price_data : List (List ℚ)) : List (List ℚ) :=
  (price_data.zip price_data.tail).map
    (fun pq => List.zipWith (fun prev cur => (cur - prev) / prev) pq.1 pq.2)

/-- returns_df.dot(weights_array) (portfolio.py line 234): the realized
portfolio return series under fixed weights. -/
def portfolio_returns (price_data : List (List ℚ)) (w : List ℚ) : List ℚ :=
  (pctChangeRows price_data).map (fun row => dotQ row w)

/-- portfolio_values = (1 + portfolio_returns).cumprod() * investment_amount
(portfolio.py line 243). -/
def cumprodValues (rs : List ℚ) (investment_amount : ℚ) : List ℚ :=
  ((rs.scanl (fun acc r => acc * (1 + r)) 1).tail).map (fun v => v * investment_amount)

def runningMaxAux (m : ℚ) : List ℚ → List ℚ
  | [] => []
  | x :: xs => max m x :: runningMaxAux (max m x) xs

/-- portfolio_values.expanding().max() (portfolio.py line 244): the running
maximum of the series. -/
def runningMax : List ℚ → List ℚ
  | [] => []
  | x :: xs => x :: runningMaxAux x xs

/-- pandas Series.min() with a zero default for the empty series (the claims
only use it on nonempty series). -/
def listMinD : List ℚ → ℚ
  | [] => 0
  | x :: t => t.foldl min x

/-- pandas Series.max() with a zero default for the empty series. -/
def listMaxD : List ℚ → ℚ
  | [] => 0
  | x :: t => t.foldl max x

/-- pandas Series.idxmin() over a positional index: the first position
attaining the minimum. -/
def idxminD (xs : List ℚ) : ℕ := xs.indexOf (listMinD xs)

/-- pandas Series.idxmax() over a positional index: the first position
attaining the maximum. -/
def idxmaxD (xs : List ℚ) : ℕ := xs.indexOf (listMaxD xs)

/-- The body of the risk-metrics try-block (portfolio.py lines 230–259) as it
would compute if its names resolved: VaR magnitudes from the 5th and 1st
return percentiles scaled by capital, maximum drawdown from cumulative wealth
against its running peak, and the drawdown duration in days between the peak
preceding the deepest trough (label slicing values[:t] is inclusive, hence
take (t+1)) and the trough.  Row dates are modelled as day numbers. -/
def riskMetricsBody (dates : List ℤ) (price_data : List (List ℚ)) (w : List ℚ)
    (investment_amount : ℚ) : RiskMetrics :=
  let pr := portfolio_returns price_data w
  let values := cumprodValues pr investment_amount
  let dd := List.zipWith (fun v m => (v - m) / m) values (runningMax values)
  let t := idxminD dd
  let p := idxmaxD (values.take (t + 1))
  { value_at_risk_95 := |var_95 pr investment_amount|
    value_at_risk_99 := |var_99 pr investment_amount|
    max_drawdown := |listMinD dd|
    max_drawdown_duration_days := dates.getD t 0 - dates.getD p 0 }

/-- The names bound at module scope by the import statements of
src/backend/api/portfolio.py (lines 6–21) together with the module-level
router binding (line 23).  numpy is never imported, so np is not among them. -/
def portfolioImportedNames : List String :=
  ["APIRouter", "HTTPException", "BaseModel", "Optional", "Dict", "List",
   "sys", "os", "fetch_stock_data", "calculate_expected_returns",
   "calculate_covariance_matrix", "optimize_portfolio",
   "simulate_efficient_frontier", "calculate_dollar_allocations", "router"]

/-- The risk-metrics step of get_efficient_frontier_endpoint (portfolio.py
lines 226–261): risk_metrics_data starts as None; the try-block's first
statement (line 230) evaluates the global name np, so the body runs only when
np is bound at module scope — otherwise the NameError is caught by the bare
except at line 260 and risk_metrics_data stays None. -/
def riskMetricsStep (dates : List ℤ) (price_data : List (List ℚ)) (w : List ℚ)
    (investment_amount : ℚ) : Option RiskMetrics :=
  if "np" ∈ portfolioImportedNames then
    some (riskMetricsBody dates price_data w investment_amount)
  else none

/-- C10: for every request that reaches the risk-metrics computation, the
response's risk_metrics field is None: the block's first statement references
np, which portfolio.py never imports, so a NameError is raised, caught by the
enclosing except, and risk_metrics_data is left as None on every path. -/
theorem risk_metrics_always_none (dates : List ℤ) (price_data : List (List ℚ))
    (w : List ℚ) (investment_amount : ℚ) :
    riskMetricsStep dates price_data w investment_amount = none := by
  unfold riskMetricsStep
  rw [if_neg (by decide)]

/-- C8 counterexample: with a single price row the derived return series is
empty (fewer than 2 observations), yet the endpoint raises no
InsufficientHistoryError — no error at all reaches the caller: the risk report
is silently omitted (risk_metrics_data = None), exactly the behaviour the
claim rules out. -/
theorem insufficient_history_silently_omitted_cex :
    (portfolio_returns [[10, 20]] [1/2, 1/2]).length < 2 ∧
    riskMetricsStep [0] [[10, 20]] [1/2, 1/2] 1000 = none := by
  constructor
  · norm_num [portfolio_returns, pctChangeRows]
  · unfold riskMetricsStep
    rw [if_neg (by decide)]

/-- C8 amended: whenever the derived portfolio return series has fewer than 2
observations (indeed on every input, since the block always dies on the
unbound name np), the endpoint leaves risk_metrics as None — silently omitting
the report — and no InsufficientHistoryError, nor any other error, reaches the
caller. -/
theorem insufficient_history_yields_none (dates : List ℤ)
    (price_data : List (List ℚ)) (w : List ℚ) (amount : ℚ)
    (hshort : (portfolio_returns price_data w).length < 2) :
    riskMetricsStep dates price_data w amount = none := by
  unfold riskMetricsStep
  rw [if_neg (by decide)]

/-- Witness for the amended C8 theorem at a concrete one-row price matrix. -/
theorem insufficient_history_yields_none_witness :
    (portfolio_returns [[25, 75]] [(3:ℚ)/5, 2/5]).length < 2 ∧
    riskMetricsStep [7] [[25, 75]] [(3:ℚ)/5, 2/5] 500 = none :=
  ⟨by norm_num [portfolio_returns, pctChangeRows],
   insufficient_history_yields_none [7] [[25, 75]] [(3:ℚ)/5, 2/5] 500
     (by norm_num [portfolio_returns, pctChangeRows])⟩

/-- weights /= np.sum(weights) (optimizer.py line 122): a raw random draw
normalized to sum to one.  This is the entire weight construction of the
sampler — no max_weight handling exists in simulate_efficient_frontier, which
does not even receive a max_weight parameter. -/
def normalizeWeights (raw : List ℚ) : List ℚ := raw.map (fun x => x / raw.sum)

/-- One simulated portfolio triple (optimizer.py lines 124–136): return,
volatility, Sharpe ratio. -/
structure SimPoint where
  ret : ℝ
  vol : ℝ
  sharpe : ℝ

/-- One loop iteration of simulate_efficient_frontier (optimizer.py lines
120–136) applied to the raw random draw of that iteration: normalize the draw,
then return μ·w, volatility sqrt(w·S·w) (over ℝ), and Sharpe ratio
return/volatility if the volatility is positive, else 0. -/
noncomputable def simPoint (mu : List ℚ) (S : List (List ℚ)) (raw : List ℚ) : SimPoint :=
  let w := normalizeWeights raw
  let r : ℝ := ((dotQ w mu : ℚ) : ℝ)
  let v : ℝ := Real.sqrt ((portVarianceQ w S : ℚ) : ℝ)
  ⟨r, v, if 0 < v then r / v else 0⟩

/-- Shallow embedding of simulate_efficient_frontier (optimizer.py lines
103–138): the np.random.random(n_assets) draw of loop iteration i is the i-th
row of the ambient random stream rand, and the loop fills exactly
num_portfolios result triples. -/
noncomputable def simulate_efficient_frontier (mu : List ℚ) (S : List (List ℚ))
    (rand : ℕ → List ℚ) (num_portfolios : ℕ) : List SimPoint :=
  (List.range num_portfolios).map (fun i => simPoint mu S (rand i))

/-- The n consecutive variates np.random.random(n) consumes for sample i when
the process-global generator stood at position s at call entry: positions
s + i·n … s + i·n + (n−1) of the global stream. -/
def drawsFor (stream : ℕ → ℚ) (s n i : ℕ) : List ℚ :=
  (List.range n).map (fun j => stream (s + i * n + j))

/-- simulate_efficient_frontier as it actually executes: np.random.random
(optimizer.py line 121) draws from the process-global NumPy generator and the
function takes no seed.  The global generator is modelled by its stream of
variates plus the position already consumed; a call returns the sampled
triples together with the advanced position. -/
noncomputable def simulateGlobalRng (mu : List ℚ) (S : List (List ℚ))
    (stream : ℕ → ℚ) (s : ℕ) (num_portfolios : ℕ) : List SimPoint × ℕ :=
  ((List.range num_portfolios).map (fun i => simPoint mu S (drawsFor stream s mu.length i)),
   s + num_portfolios * mu.length)

/-- C3 counterexample: the sampler's weight construction applies no max_weight
policy — neither rejection nor clipping.  The admissible raw draw [0.9, 0.1]
(componentwise in np.random.random's range [0, 1)) normalizes to itself, and
its first weight 0.9 exceeds the cap 0.5 < 1. -/
theorem sample_ignores_weight_cap_cex :
    normalizeWeights [9/10, 1/10] = [9/10, 1/10] ∧
    ¬((9:ℚ)/10 ≤ 1/2) ∧ ((1:ℚ)/2 < 1) ∧
    (∀ x ∈ ([9/10, 1/10] : List ℚ), 0 ≤ x ∧ x < 1) := by
  refine ⟨?_, by norm_num, by norm_num, by norm_num⟩
  norm_num [normalizeWeights]

/-- C3 amended: every sampled weight vector sums to 1 and lies in [0, 1]
componentwise, for every raw draw that is nonnegative with positive sum; no
max_weight cap is enforced (or even visible to the sampler), so under a cap
max_weight < 1 a sample may violate the solver's feasibility set. -/
theorem sample_weights_simplex (raw : List ℚ)
    (h0 : ∀ x ∈ raw, 0 ≤ x) (hs : 0 < raw.sum) :
    (normalizeWeights raw).sum = 1 ∧
    ∀ y ∈ normalizeWeights raw, 0 ≤ y ∧ y ≤ 1 := by
  constructor
  · unfold normalizeWeights
    rw [sum_map_div, div_self (ne_of_gt hs)]
  · intro y hy
    unfold normalizeWeights at hy
    rcases List.mem_map.mp hy with ⟨x, hxm, hxe⟩
    have hx0 := h0 x hxm
    have hxle : x ≤ raw.sum := List.single_le_sum h0 x hxm
    subst hxe
    exact ⟨div_nonneg hx0 (le_of_lt hs), by rw [div_le_one hs]; exact hxle⟩

/-- Witness for the amended C3 theorem at a concrete draw. -/
theorem sample_weights_simplex_witness :
    (∀ x ∈ ([1/2, 1/4] : List ℚ), 0 ≤ x) ∧ (0 < ([1/2, 1/4] : List ℚ).sum) ∧
    ((normalizeWeights [1/2, 1/4]).sum = 1 ∧
      ∀ y ∈ normalizeWeights [1/2, 1/4], 0 ≤ y ∧ y ≤ 1) :=
  ⟨by norm_num, by norm_num,
   sample_weights_simplex [1/2, 1/4] (by norm_num) (by norm_num)⟩

/-- C6: simulate_efficient_frontier returns exactly num_portfolios triples, and
the i-th triple carries return μ·w_i, volatility sqrt(w_i·S·w_i), and a Sharpe
ratio equal to return/volatility when the volatility is positive and to 0 when
it is zero, where w_i is the i-th normalized draw. -/
theorem simulate_frontier_forms (mu : List ℚ) (S : List (List ℚ))
    (rand : ℕ → List ℚ) (num : ℕ) :
    (simulate_efficient_frontier mu S rand num).length = num ∧
    ∀ i, i < num →
      (simulate_efficient_frontier mu S rand num).getD i ⟨0, 0, 0⟩
          = simPoint mu S (rand i) ∧
      (simPoint mu S (rand i)).ret = ((dotQ (normalizeWeights (rand i)) mu : ℚ) : ℝ) ∧
      (simPoint mu S (rand i)).vol
          = Real.sqrt ((portVarianceQ (normalizeWeights (rand i)) S : ℚ) : ℝ) ∧
      (0 < (simPoint mu S (rand i)).vol →
        (simPoint mu S (rand i)).sharpe
          = (simPoint mu S (rand i)).ret / (simPoint mu S (rand i)).vol) ∧
      ((simPoint mu S (rand i)).vol = 0 → (simPoint mu S (rand i)).sharpe = 0) := by
  have hlen : (simulate_efficient_frontier mu S rand num).length = num := by
    simp [simulate_efficient_frontier]
  refine ⟨hlen, ?_⟩
  intro i hi
  refine ⟨?_, rfl, rfl, ?_, ?_⟩
  · rw [List.getD_eq_getElem _ _ (by rw [hlen]; exact hi)]
    simp [simulate_efficient_frontier]
  · intro hv
    unfold simPoint at hv ⊢
    simp only at hv ⊢
    rw [if_pos hv]
  · intro hv
    unfold simPoint at hv ⊢
    simp only at hv ⊢
    rw [if_neg (by rw [hv]; exact lt_irrefl 0)]

/-- Witness for C6 at a concrete one-sample run. -/
theorem simulate_frontier_forms_witness :
    0 < 1 ∧
    (simulate_efficient_frontier [1] [[0]] (fun _ => [1]) 1).length = 1 ∧
    (simulate_efficient_frontier [1] [[0]] (fun _ => [1]) 1).getD 0 ⟨0, 0, 0⟩
      = simPoint [1] [[0]] [1] :=
  ⟨Nat.zero_lt_one, (simulate_frontier_forms [1] [[0]] (fun _ => [1]) 1).1,
   ((simulate_frontier_forms [1] [[0]] (fun _ => [1]) 1).2 0 Nat.zero_lt_one).1⟩

/-- C9 counterexample: two consecutive runs of the sampler with identical
(μ, Σ, sample count) differ, because the second run starts from the global
generator position the first run left behind and there is no seed parameter
restoring it.  With stream k ↦ k+1, μ = [1,0] and Σ = 0, the first run's only
sample has return 1/3, the second run's 3/7. -/
theorem simulate_not_seed_reproducible_cex :
    (simulateGlobalRng [1, 0] [[0, 0], [0, 0]] (fun k => (k : ℚ) + 1) 0 1).1
      ≠ (simulateGlobalRng [1, 0] [[0, 0], [0, 0]] (fun k => (k : ℚ) + 1)
          (simulateGlobalRng [1, 0] [[0, 0], [0, 0]] (fun k => (k : ℚ) + 1) 0 1).2 1).1 := by
  intro h
  have h0 := congrArg (fun l => (l.getD 0 ⟨0, 0, 0⟩).ret) h
  norm_num [simulateGlobalRng, drawsFor, simPoint, normalizeWeights, dotQ,
    List.range_succ, List.getD] at h0

/-- C9 amended: the sampler is deterministic only relative to the full global
generator state, which no parameter exposes: a call advances the global
position by num·n_assets, and a run started from the shifted position s + k
equals the run of the k-shifted stream from s — so consecutive calls read
disjoint stream segments and only restoring the global state reproduces a
run. -/
theorem simulate_global_state_shift (mu : List ℚ) (S : List (List ℚ))
    (stream : ℕ → ℚ) (s k num : ℕ) :
    (simulateGlobalRng mu S stream s num).2 = s + num * mu.length ∧
    (simulateGlobalRng mu S stream (s + k) num).1
      = (simulateGlobalRng mu S (fun j => stream (k + j)) s num).1 := by
  constructor
  · rfl
  · simp only [simulateGlobalRng]
    apply List.map_congr_left
    intro i hi
    congr 1
    unfold drawsFor
    apply List.map_congr_left
    intro j hj
    congr 1
    omega
